import Mathlib

/-!
# Verification of the board-game dashboard wrangling pipeline

Shallow embedding of `src/app/app_wrangling.py` (the Table Transform
Pipeline of the spec).  A pandas dataframe row becomes a `Row`; a dataframe
becomes a `List Row`.  The multi-valued categorical cells (`category`,
`mechanic`, `publisher`, and the derived `group` column) are lists of
strings, as produced by `call_boardgame_data`.  `year_published` is carried
as the integer year: the source stores `pd.to_datetime(year, format="%Y")`,
i.e. January 1 of the year, and `year_filter` compares such values, so the
datetime order coincides with the integer order on years.  `average_rating`
is carried as an exact rational.  Python `list(set(x).intersection(set(y)))`
has unspecified element order; the embedding fixes the canonical order of
first occurrence in `x` (claims about the group column are stated up to set
equality where the order matters).
-/

set_option linter.unusedVariables false

/-- One row of the board-game dataframe, after `call_boardgame_data` has
split the categorical columns into lists.  The `group` column only exists
after `form_group`; it is modelled as an always-present field that
`form_group` overwrites (its prior content is irrelevant to every claim).
`average_rating_bin` models the column added by `bin_rating`. -/
structure Row where
  game_id : Nat
  name : String
  year_published : Int
  average_rating : ℚ
  users_rated : Nat
  category : List String
  mechanic : List String
  publisher : List String
  group : List String := []
  average_rating_bin : ℚ := 0
  deriving DecidableEq, Repr

abbrev DF := List Row

/-- The three multi-valued categorical columns a user can select on. -/
inductive Col where
  | category
  | mechanic
  | publisher
  deriving DecidableEq, Repr

def getCol (r : Row) : Col → List String
  | .category => r.category
  | .mechanic => r.mechanic
  | .publisher => r.publisher

/-- `rating_filter`: keeps rows with `users_rated >= no_of_ratings`
(`df[df["users_rated"] >= no_of_ratings]`). -/
def rating_filter (data : DF) (no_of_ratings : Nat) : DF :=
  data.filter (fun r => decide (no_of_ratings ≤ r.users_rated))

/-- `year_filter`: keeps rows with
`year_in <= year_published <= year_out`.  The source converts both bounds
with `pd.to_datetime(year, format="%Y")` (January 1) and compares datetimes;
on the integer-year embedding this is the inclusive integer comparison. -/
def year_filter (data : DF) (year_in year_out : Int) : DF :=
  data.filter (fun r =>
    decide (year_in ≤ r.year_published) && decide (r.year_published ≤ year_out))

/-- Python `all(item in x for item in list_)` for one row: the row's tag
list in column `col` contains every tag of `list_`. -/
def allMatchB (col : Col) (list_ : List String) (r : Row) : Bool :=
  list_.all (fun item => decide (item ∈ getCol r col))

/-- Python `any(item in x for item in list_)` for one row. -/
def anyMatchB (col : Col) (list_ : List String) (r : Row) : Bool :=
  list_.any (fun item => decide (item ∈ getCol r col))

/-- `call_bool_series_and`: one Bool per row, `True` when the row matches
every entry of `list_`; if the resulting series has no `True` at all
(`list_bool.sum() == 0`), every value is flipped to `True` (`~list_bool`). -/
def call_bool_series_and (data : DF) (col : Col) (list_ : List String) :
    List Bool :=
  let list_bool := data.map (allMatchB col list_)
  if list_bool.count true = 0 then list_bool.map (fun b => !b) else list_bool

/-- `call_bool_series_or`: one Bool per row, `True` when the row matches at
least one entry of `list_`.  No flipping. -/
def call_bool_series_or (data : DF) (col : Col) (list_ : List String) :
    List Bool :=
  data.map (anyMatchB col list_)

/-- `df[mask]`: keep the rows whose aligned Bool is `True`. -/
def filterByMask : DF → List Bool → DF
  | [], _ => []
  | _, [] => []
  | r :: rs, b :: bs =>
    if b then r :: filterByMask rs bs else filterByMask rs bs

/-- Elementwise `b0 & b1 & b2` of the three aligned Bool series
(`columns_bool[0] & columns_bool[1] & columns_bool[2]`). -/
def zipAnd3 : List Bool → List Bool → List Bool → List Bool
  | a :: as, b :: bs, c :: cs => (a && b && c) :: zipAnd3 as bs cs
  | _, _, _ => []

/-- Descending order on `average_rating`, the sort key of
`sort_values("average_rating", ascending=False)`. -/
def ratingGE (a b : Row) : Prop := b.average_rating ≤ a.average_rating

instance : DecidableRel ratingGE := fun a b =>
  inferInstanceAs (Decidable (b.average_rating ≤ a.average_rating))

instance : IsTotal Row ratingGE :=
  ⟨fun a b => (le_total a.average_rating b.average_rating).symm⟩

instance : IsTrans Row ratingGE :=
  ⟨fun _ _ _ hab hbc => le_trans hbc hab⟩

/-- `sort_values("average_rating", ascending=False)`. -/
def sortByRatingDesc (data : DF) : DF :=
  data.insertionSort ratingGE

/-- `call_boardgame_filter`: deep-copies (value semantics here), applies
the rating filter, builds the three match-all Bool series, keeps rows where
all three are `True`, sorts descending by rating, and truncates to `n` rows
under `if n:` — i.e. only when `n` is neither `None` nor `0`. -/
def call_boardgame_filter (data : DF) (cat mech pub : List String)
    (n : Option Nat) (n_ratings : Nat) : DF :=
  let boardgame_data := rating_filter data n_ratings
  -- `columns_bool`, built by comprehension over {"category": cat,
  -- "mechanic": mech, "publisher": pub} in insertion order:
  let columns_bool_0 := call_bool_series_and boardgame_data .category cat
  let columns_bool_1 := call_bool_series_and boardgame_data .mechanic mech
  let columns_bool_2 := call_bool_series_and boardgame_data .publisher pub
  let boardgame_data :=
    filterByMask boardgame_data
      (zipAnd3 columns_bool_0 columns_bool_1 columns_bool_2)
  let boardgame_data := sortByRatingDesc boardgame_data
  match n with
  | none => boardgame_data
  | some k => if k ≠ 0 then boardgame_data.take k else boardgame_data

/-- `helper_form_group`: replace a group value by `["All Selected"]` when
it contains every entry of the user list. -/
def helper_form_group (x : List String) (user_list : List String) :
    List String :=
  if user_list.all (fun item => decide (item ∈ x)) then ["All Selected"] else x

/-- `list(set(x).intersection(set(list_)))`, in the canonical order of
first occurrence in `x` (Python's set order is unspecified). -/
def setIntersect (x list_ : List String) : List String :=
  x.dedup.filter (fun t => decide (t ∈ list_))

/-- The per-row effect of `form_group`: populate the `group` cell with the
intersection of the row's tags and the selection and, only when the
selection has more than one entry (`len(list_) > 1`), collapse full matches
to `["All Selected"]`. -/
def form_group_row (col : Col) (list_ : List String) (r : Row) : Row :=
  let g := setIntersect (getCol r col) list_
  let g := if 1 < list_.length then helper_form_group g list_ else g
  { r with group := g }

/-- `form_group` over the whole dataframe (`data[col].apply(...)` twice). -/
def form_group (data : DF) (col : Col) (list_ : List String) : DF :=
  data.map (form_group_row col list_)

/-- The final step of `call_boardgame_radio` keeps rows with
`group != ""`.  A `group` cell is a Python list and `""` is a string, so
the elementwise comparison is always unequal: every row is kept. -/
def group_ne_empty_string (g : List String) : Bool := true

/-- `call_boardgame_radio`: year filter, rating filter, match-any subset on
`col`, `form_group`, then the (vacuous) `group != ""` removal. -/
def call_boardgame_radio (data : DF) (col : Col) (list_ : List String)
    (year_in year_out : Int) (no_of_ratings : Nat) : DF :=
  let boardgame_data := year_filter data year_in year_out
  let boardgame_data := rating_filter boardgame_data no_of_ratings
  let boardgame_data :=
    filterByMask boardgame_data (call_bool_series_or boardgame_data col list_)
  let boardgame_data := form_group boardgame_data col list_
  boardgame_data.filter (fun r => group_ne_empty_string r.group)

/-- `df.explode("group")`: one `(row, tag)` pair per entry of the row's
`group` list.  A row whose `group` list is empty explodes to a single
`NaN` entry in pandas, which every later `groupby` on `group` drops, so
the embedding omits it. -/
def explodeGroup : DF → List (Row × String)
  | [] => []
  | r :: rs => r.group.map (fun g => (r, g)) ++ explodeGroup rs

/-- `df.explode(col)` for a categorical column, same convention as
`explodeGroup`. -/
def explodeOn (col : Col) : DF → List (Row × String)
  | [] => []
  | r :: rs => (getCol r col).map (fun t => (r, t)) ++ explodeOn col rs

/-- The per-`(year, group)` count of `count_group`'s
`groupby(["year_published", "group"]).game_id.count()` (every `game_id`
is present, so the count is the number of exploded pairs). -/
def rawCount (data : DF) (y : Int) (g : String) : Nat :=
  ((explodeGroup data).filter
    (fun p => decide (p.1.year_published = y) && decide (p.2 = g))).length

/-- One cell of the unstacked count table: `groupby` only produces
observed `(year, group)` keys, and `unstack` leaves the rest `NaN`
(modelled `none`). -/
def rawCell (data : DF) (y : Int) (g : String) : Option Nat :=
  if rawCount data y g = 0 then none else some (rawCount data y g)

/-- The unstacked table produced by `count_group`: row index = years,
columns = group names, cells optional counts. -/
structure CountTable where
  years : List Int
  groups : List String
  cell : Int → String → Option Nat

/-- `count_group`: explode `group`, count `game_id` per
`(year_published, group)`, unstack to a year × group table; then, if an
`"All Selected"` column exists, add its counts (`fillna(0)`) to every
other column (`NaN` cells stay `NaN`: `NaN + v = NaN`) and keep the
`"All Selected"` column itself unchanged. -/
def count_group (data : DF) : CountTable :=
  let years := ((explodeGroup data).map (fun p => p.1.year_published)).dedup
  let groups := ((explodeGroup data).map (fun p => p.2)).dedup
  if "All Selected" ∈ groups then
    -- all_addition = df_out["All Selected"].fillna(0)
    let all_addition : Int → Nat := fun y =>
      (rawCell data y "All Selected").getD 0
    -- revised_columns = df_out.drop(columns=["All Selected"])
    --                     .apply(lambda x: x + all_addition.values)
    { years := years, groups := groups,
      cell := fun y g =>
        if g = "All Selected" then rawCell data y g
        else (rawCell data y g).map (fun c => c + all_addition y) }
  else
    { years := years, groups := groups, cell := rawCell data }

/-- Descending order on the rating component of a `(tag, mean rating)`
pair, the sort key of `call_boardgame_top`. -/
def meanGE (a b : String × ℚ) : Prop := b.2 ≤ a.2

instance : DecidableRel meanGE := fun a b =>
  inferInstanceAs (Decidable (b.2 ≤ a.2))

instance : IsTotal (String × ℚ) meanGE :=
  ⟨fun a b => (le_total a.2 b.2).symm⟩

instance : IsTrans (String × ℚ) meanGE :=
  ⟨fun _ _ _ hab hbc => le_trans hbc hab⟩

/-- `groupby(col)["average_rating"].mean()` for one tag. -/
def tagMeanRating (exp : List (Row × String)) (t : String) : ℚ :=
  let rs := (exp.filter (fun p => decide (p.2 = t))).map
    (fun p => p.1.average_rating)
  rs.sum / rs.length

/-- `call_boardgame_top`: year and rating filters, explode `col`, mean
rating per tag, sort descending, keep the top 5 as `(tag, mean)` rows. -/
def call_boardgame_top (data : DF) (col : Col) (year_in year_out : Int)
    (no_of_ratings : Nat) : List (String × ℚ) :=
  let boardgame_data := year_filter data year_in year_out
  let boardgame_data := rating_filter boardgame_data no_of_ratings
  let board_game_exp := explodeOn col boardgame_data
  let names := (board_game_exp.map (fun p => p.2)).dedup
  let means := names.map (fun t => (t, tagMeanRating board_game_exp t))
  (means.insertionSort meanGE).take 5

/-- The bin labels of `bin_rating`: `np.arange(0, 10.5, 0.5)`, i.e.
0, 0.5, …, 10.  `pd.cut` assigns every in-range `average_rating` one of
these labels, which form the categorical levels of the
`average_rating_bin` column. -/
def binLabels : List ℚ :=
  (List.range 21).map (fun i : Nat => (i : ℚ) / 2)

/-- Concatenation of a list of lists (`pd.concat`). -/
def concatAll {α : Type} : List (List α) → List α
  | [] => []
  | l :: ls => l ++ concatAll ls

/-- All `(bin, group)` keys of
`groupby(["average_rating_bin", "group"])`: `average_rating_bin` is a
categorical, so pandas forms the product of all its levels with the
observed group values. -/
def prodKeys : List ℚ → List String → List (ℚ × String)
  | [], _ => []
  | b :: bs, gs => gs.map (fun g => (b, g)) ++ prodKeys bs gs

/-- Count of exploded rows in one `(bin, group)` cell
(`.count()` on a fully-present column equals the cell's size). -/
def countBin (data : DF) (b : ℚ) (g : String) : Nat :=
  ((explodeGroup data).filter
    (fun p => decide (p.1.average_rating_bin = b) && decide (p.2 = g))).length

/-- The group values observed after exploding `group`. -/
def observedGroups (data : DF) : List String :=
  ((explodeGroup data).map (fun p => p.2)).dedup

/-- `plot_density` of `density_transform`: the per-`(bin, group)` counts,
reset to a flat list of `(average_rating_bin, group, count)` rows. -/
def plot_density (data : DF) : List (ℚ × String × ℕ) :=
  (prodKeys binLabels (observedGroups data)).map
    (fun k => (k.1, k.2, countBin data k.1 k.2))

/-- `density_transform` (density part): for each group name `x` of
`plot_density`, take its rows and divide each count by the group's total
count; concatenate the per-group frames.  The `mean` column the source
also attaches is not involved in any claim and is omitted. -/
def density_transform (data : DF) : List (ℚ × String × ℚ) :=
  let pd := plot_density data
  let names := (pd.map (fun t => t.2.1)).dedup
  concatAll (names.map (fun x =>
    let temp := pd.filter (fun t => decide (t.2.1 = x))
    let total : ℚ := (temp.map (fun t => (t.2.2 : ℚ))).sum
    temp.map (fun t => (t.1, t.2.1, (t.2.2 : ℚ) / total))))

/-!
## Mutation model

Python dataframes are heap objects passed by reference.  To state the
frame conditions (claim about deep copies) we model a heap: a `Store` maps
references (indices) to dataframe values.  `data.copy(deep=True)` and
every pandas operation that returns a fresh frame (`df[mask]`,
`sort_values`, slicing, `explode`/`groupby` chains) allocate a new
reference; `form_group` writes its `group` column in place
(`data["group"] = ...`), modelled as a store update at its argument's
reference.
-/

abbrev Store := List DF

def getRef (s : Store) (r : Nat) : DF := s.getD r []

/-- Allocate a fresh reference holding `d`. -/
def alloc (s : Store) (d : DF) : Store × Nat := (s ++ [d], s.length)

/-- `form_group` mutates its argument in place and returns it. -/
def form_group_store (s : Store) (r : Nat) (col : Col)
    (list_ : List String) : Store :=
  s.set r (form_group (getRef s r) col list_)

/-- `call_boardgame_filter` at the heap level: the deep copy and each
frame-returning pandas call allocate; nothing writes to an existing
reference. -/
def call_boardgame_filter_store (s : Store) (r : Nat)
    (cat mech pub : List String) (n : Option Nat) (n_ratings : Nat) :
    Store × Nat :=
  let (s, r1) := alloc s (getRef s r)                     -- data.copy(deep=True)
  let (s, r2) := alloc s (rating_filter (getRef s r1) n_ratings)
  let d := getRef s r2
  let mask := zipAnd3 (call_bool_series_and d .category cat)
    (call_bool_series_and d .mechanic mech)
    (call_bool_series_and d .publisher pub)
  let (s, r3) := alloc s (filterByMask d mask)            -- df[mask]
  let (s, r4) := alloc s (sortByRatingDesc (getRef s r3)) -- sort_values
  match n with
  | none => (s, r4)
  | some k =>
    if k ≠ 0 then
      let (s, r5) := alloc s ((getRef s r4).take k)       -- df[:n]
      (s, r5)
    else (s, r4)

/-- `call_boardgame_radio` at the heap level: the only in-place write,
`form_group`, receives the reference allocated by the copy/filter chain,
never the caller's. -/
def call_boardgame_radio_store (s : Store) (r : Nat) (col : Col)
    (list_ : List String) (year_in year_out : Int) (no_of_ratings : Nat) :
    Store × Nat :=
  let (s, r1) := alloc s (getRef s r)                     -- data.copy(deep=True)
  let (s, r2) := alloc s (year_filter (getRef s r1) year_in year_out)
  let (s, r3) := alloc s (rating_filter (getRef s r2) no_of_ratings)
  let d := getRef s r3
  let (s, r4) := alloc s (filterByMask d (call_bool_series_or d col list_))
  let s := form_group_store s r4 col list_                -- in-place write
  let (s, r5) := alloc s
    ((getRef s r4).filter (fun row => group_ne_empty_string row.group))
  (s, r5)

/-- `call_boardgame_top` at the heap level. -/
def call_boardgame_top_store (s : Store) (r : Nat) (col : Col)
    (year_in year_out : Int) (no_of_ratings : Nat) : Store × Nat :=
  let (s, r1) := alloc s (getRef s r)                     -- data.copy(deep=True)
  let (s, r2) := alloc s (year_filter (getRef s r1) year_in year_out)
  let (s, r3) := alloc s (rating_filter (getRef s r2) no_of_ratings)
  -- explode / groupby / mean / sort / take build a fresh frame of another
  -- shape; the result value is `call_boardgame_top` and only the heap
  -- effect matters here, so the allocated cell keeps the source frame.
  let (s, r4) := alloc s (getRef s r3)
  (s, r4)

/-!
## Basic lemmas about the embedding
-/

theorem filterByMask_map (p : Row → Bool) :
    ∀ l : DF, filterByMask l (l.map p) = l.filter p := by
  intro l
  induction l with
  | nil => rfl
  | cons r rs ih =>
    by_cases h : p r <;> simp [filterByMask, List.filter_cons, h, ih]

theorem zipAnd3_map (p q s : Row → Bool) :
    ∀ l : DF,
      zipAnd3 (l.map p) (l.map q) (l.map s)
        = l.map (fun x => p x && q x && s x) := by
  intro l
  induction l with
  | nil => rfl
  | cons r rs ih => simp [zipAnd3, ih]

/-- The effective per-row predicate of `call_bool_series_and` over a fixed
dataframe: match-all, unless no row of the frame matches all, in which
case everything passes (the flipped series). -/
def effAllB (bd : DF) (col : Col) (list_ : List String) (r : Row) : Bool :=
  if bd.any (allMatchB col list_) then allMatchB col list_ r
  else !(allMatchB col list_ r)

theorem call_bool_series_and_eq_map (bd : DF) (col : Col)
    (list_ : List String) :
    call_bool_series_and bd col list_ = bd.map (effAllB bd col list_) := by
  unfold call_bool_series_and effAllB
  by_cases h : bd.any (allMatchB col list_)
  · have hc : (bd.map (allMatchB col list_)).count true ≠ 0 := by
      rcases List.any_eq_true.mp h with ⟨r, hr, hpr⟩
      have : true ∈ bd.map (allMatchB col list_) :=
        List.mem_map.mpr ⟨r, hr, hpr⟩
      simpa [List.count_eq_zero] using this
    simp [hc, h]
  · have hc : (bd.map (allMatchB col list_)).count true = 0 := by
      rw [List.count_eq_zero]
      intro hmem
      rcases List.mem_map.mp hmem with ⟨r, hr, hpr⟩
      exact h (List.any_eq_true.mpr ⟨r, hr, hpr⟩)
    simp [hc, h, List.map_map, Function.comp]

/-- On a row of the frame itself, the effective predicate holds exactly
when "some row matches all ⟹ this row matches all". -/
theorem effAllB_iff (bd : DF) (col : Col) (list_ : List String) (r : Row)
    (hr : r ∈ bd) :
    effAllB bd col list_ r = true ↔
      ((∃ s ∈ bd, ∀ t ∈ list_, t ∈ getCol s col) →
        ∀ t ∈ list_, t ∈ getCol r col) := by
  unfold effAllB
  by_cases h : bd.any (allMatchB col list_)
  · have hex : ∃ s ∈ bd, ∀ t ∈ list_, t ∈ getCol s col := by
      rcases List.any_eq_true.mp h with ⟨s, hs, hps⟩
      exact ⟨s, hs, by simpa [allMatchB, List.all_eq_true] using hps⟩
    simp [h, hex, allMatchB, List.all_eq_true]
  · have hnex : ¬ ∃ s ∈ bd, ∀ t ∈ list_, t ∈ getCol s col := by
      intro ⟨s, hs, hps⟩
      exact h (List.any_eq_true.mpr
        ⟨s, hs, by simpa [allMatchB, List.all_eq_true] using hps⟩)
    have hfr : allMatchB col list_ r = false := by
      by_contra hne
      exact h (List.any_eq_true.mpr
        ⟨r, hr, by simpa using Bool.of_not_eq_false hne⟩)
    simp [h, hnex, hfr]

theorem mem_rating_filter (data : DF) (nr : Nat) (r : Row) :
    r ∈ rating_filter data nr ↔ r ∈ data ∧ nr ≤ r.users_rated := by
  simp [rating_filter, List.mem_filter]

theorem mem_year_filter (data : DF) (yin yout : Int) (r : Row) :
    r ∈ year_filter data yin yout ↔
      r ∈ data ∧ yin ≤ r.year_published ∧ r.year_published ≤ yout := by
  simp [year_filter, List.mem_filter]

/-- `call_boardgame_filter` with `n = None` is the sorted filter phase. -/
theorem call_boardgame_filter_none (data : DF) (cat mech pub : List String)
    (nr : Nat) :
    call_boardgame_filter data cat mech pub none nr
      = sortByRatingDesc
          ((rating_filter data nr).filter (fun r =>
            effAllB (rating_filter data nr) .category cat r
            && effAllB (rating_filter data nr) .mechanic mech r
            && effAllB (rating_filter data nr) .publisher pub r)) := by
  simp only [call_boardgame_filter]
  rw [call_bool_series_and_eq_map, call_bool_series_and_eq_map,
    call_bool_series_and_eq_map, zipAnd3_map, filterByMask_map]

/-!
## Example rows used by witnesses and counterexamples
-/

def exRowA : Row :=
  { game_id := 1, name := "a", year_published := 2000, average_rating := 7,
    users_rated := 10, category := ["X"], mechanic := ["M"],
    publisher := ["P"] }

def exRowXY : Row :=
  { game_id := 2, name := "b", year_published := 2001, average_rating := 8,
    users_rated := 20, category := ["X", "Y"], mechanic := ["M"],
    publisher := ["P"] }

/-!
## C1: the "All Selected" collapsing rule
-/

/-- C1 (counterexample): with the single-tag selection `["X"]`, the row
`exRowA` matches every selected tag, yet `form_group` leaves its group as
`["X"]`, not `["All Selected"]` — the collapse only fires when
`len(list_) > 1`. -/
theorem C1_counterexample :
    (∀ t ∈ (["X"] : List String), t ∈ getCol exRowA Col.category)
    ∧ (form_group [exRowA] Col.category ["X"]).map Row.group = [["X"]]
    ∧ (["X"] : List String) ≠ ["All Selected"] := by
  refine ⟨by decide, ?_, by decide⟩
  rfl

/-- C1 (amended): for every table row and every user-selected tag list
WITH MORE THAN ONE ENTRY, if the row's tags in the selected column include
every tag of the selected list, then `form_group` assigns that row the
sentinel group value `["All Selected"]`. -/
theorem C1_all_selected_amended (data : DF) (col : Col)
    (list_ : List String) (i : Nat) (hi : i < data.length)
    (hlen : 1 < list_.length)
    (hall : ∀ t ∈ list_, t ∈ getCol (data.get ⟨i, hi⟩) col) :
    ((form_group data col list_).get
      ⟨i, by simpa [form_group] using hi⟩).group = ["All Selected"] := by
  have hget : (form_group data col list_).get
      ⟨i, by simpa [form_group] using hi⟩
      = form_group_row col list_ (data.get ⟨i, hi⟩) := by
    simp [form_group, List.get_eq_getElem]
  rw [hget]
  clear hget
  have hcond : list_.all
      (fun item =>
        decide (item ∈ setIntersect (getCol (data.get ⟨i, hi⟩) col) list_))
      = true := by
    simp only [List.all_eq_true, decide_eq_true_eq, setIntersect,
      List.mem_filter, List.mem_dedup]
    exact fun t ht => ⟨hall t ht, by simpa using ht⟩
  dsimp only [form_group_row]
  rw [if_pos hlen]
  unfold helper_form_group
  rw [if_pos hcond]

/-- C1 (witness): the two-tag selection `["X", "Y"]` on `exRowXY`. -/
theorem C1_witness :
    1 < (["X", "Y"] : List String).length
    ∧ ((form_group [exRowXY] Col.category ["X", "Y"]).get
        ⟨0, by decide⟩).group = ["All Selected"] := by
  refine ⟨by decide, ?_⟩
  exact C1_all_selected_amended [exRowXY] Col.category ["X", "Y"] 0 (by decide)
      (by decide) (by decide)

/-!
## C2: `call_boardgame_filter` match-all semantics
-/

/-- C2 (counterexample): no row matches `cat = ["Y"]`, so
`call_bool_series_and` flips the all-`False` series to all-`True` and the
non-matching row `exRowA` is returned anyway; the claim says only rows
whose category contains every tag of `cat` are returned. -/
theorem C2_counterexample :
    exRowA ∈ call_boardgame_filter [exRowA] ["Y"] [] [] none 0
    ∧ "Y" ∉ exRowA.category := by
  constructor
  · have h : call_boardgame_filter [exRowA] ["Y"] [] [] none 0 = [exRowA] := by
      rfl
    rw [h]
    exact List.mem_singleton.mpr rfl
  · decide

/-- C2 (amended): with `n = None`, `call_boardgame_filter` returns exactly
the rows meeting the rating threshold that pass each field's effective
match-all test, where a field's test degenerates to "always pass" exactly
when NO rating-passing row matches all of that field's tags (the flipped
all-`False` series). -/
theorem C2_filter_matchall_amended (data : DF) (cat mech pub : List String)
    (nr : Nat) (r : Row) :
    r ∈ call_boardgame_filter data cat mech pub none nr ↔
      (r ∈ data ∧ nr ≤ r.users_rated)
      ∧ ((∃ s ∈ rating_filter data nr, ∀ t ∈ cat, t ∈ getCol s Col.category) →
          ∀ t ∈ cat, t ∈ getCol r Col.category)
      ∧ ((∃ s ∈ rating_filter data nr, ∀ t ∈ mech, t ∈ getCol s Col.mechanic) →
          ∀ t ∈ mech, t ∈ getCol r Col.mechanic)
      ∧ ((∃ s ∈ rating_filter data nr, ∀ t ∈ pub, t ∈ getCol s Col.publisher) →
          ∀ t ∈ pub, t ∈ getCol r Col.publisher) := by
  rw [call_boardgame_filter_none]
  unfold sortByRatingDesc
  rw [List.mem_insertionSort, List.mem_filter]
  constructor
  · rintro ⟨hr, hP⟩
    simp only [Bool.and_eq_true] at hP
    exact ⟨(mem_rating_filter data nr r).mp hr,
      (effAllB_iff _ _ _ _ hr).mp hP.1.1,
      (effAllB_iff _ _ _ _ hr).mp hP.1.2,
      (effAllB_iff _ _ _ _ hr).mp hP.2⟩
  · rintro ⟨hd, h1, h2, h3⟩
    have hr : r ∈ rating_filter data nr := (mem_rating_filter data nr r).mpr hd
    refine ⟨hr, ?_⟩
    simp only [Bool.and_eq_true]
    exact ⟨⟨(effAllB_iff _ _ _ _ hr).mpr h1, (effAllB_iff _ _ _ _ hr).mpr h2⟩,
      (effAllB_iff _ _ _ _ hr).mpr h3⟩

/-!
## The radio pipeline: membership characterization
-/

/-- A row survives `call_boardgame_radio` exactly when some input row
passes the year filter, the rating filter and the match-any test, and the
output row is that row with its `group` column populated. -/
theorem mem_call_boardgame_radio (data : DF) (col : Col)
    (list_ : List String) (yin yout : Int) (nr : Nat) (out : Row) :
    out ∈ call_boardgame_radio data col list_ yin yout nr ↔
      ∃ r ∈ data,
        (yin ≤ r.year_published ∧ r.year_published ≤ yout)
        ∧ nr ≤ r.users_rated
        ∧ (∃ t ∈ list_, t ∈ getCol r col)
        ∧ out = form_group_row col list_ r := by
  simp only [call_boardgame_radio, call_bool_series_or]
  rw [filterByMask_map]
  simp only [form_group, group_ne_empty_string, List.filter_true,
    List.mem_map, List.mem_filter, mem_year_filter, mem_rating_filter,
    anyMatchB, List.any_eq_true, decide_eq_true_eq, Bool.and_eq_true]
  constructor
  · rintro ⟨r, ⟨⟨⟨hd, h1, h2⟩, h3⟩, h4⟩, h5⟩
    exact ⟨r, hd, ⟨h1, h2⟩, h3, h4, h5.symm⟩
  · rintro ⟨r, hd, ⟨h1, h2⟩, h3, h4, h5⟩
    exact ⟨r, ⟨⟨⟨hd, h1, h2⟩, h3⟩, h4⟩, h5.symm⟩

/-- C6: `call_boardgame_radio` retains a row if and only if it passes the
year and rating filters and its tag list in `col` shares at least one tag
with the selection (match-any); the retained row carries the populated
`group` column. -/
theorem C6_radio_match_any (data : DF) (col : Col) (list_ : List String)
    (yin yout : Int) (nr : Nat) (out : Row) :
    out ∈ call_boardgame_radio data col list_ yin yout nr ↔
      ∃ r ∈ data,
        (yin ≤ r.year_published ∧ r.year_published ≤ yout)
        ∧ nr ≤ r.users_rated
        ∧ (∃ t ∈ list_, t ∈ getCol r col)
        ∧ out = form_group_row col list_ r :=
  mem_call_boardgame_radio data col list_ yin yout nr out

/-- C7: every row returned by `call_boardgame_radio` meets the rating
threshold and lies inside the inclusive year range. -/
theorem C7_radio_year_rating_bounds (data : DF) (col : Col)
    (list_ : List String) (yin yout : Int) (nr : Nat) (out : Row)
    (h : out ∈ call_boardgame_radio data col list_ yin yout nr) :
    nr ≤ out.users_rated
    ∧ yin ≤ out.year_published ∧ out.year_published ≤ yout := by
  rcases (mem_call_boardgame_radio data col list_ yin yout nr out).mp h with
    ⟨r, _, ⟨h1, h2⟩, h3, _, hout⟩
  subst hout
  exact ⟨h3, h1, h2⟩

theorem setIntersect_ne_nil {x list_ : List String} {t : String}
    (htx : t ∈ x) (htl : t ∈ list_) : setIntersect x list_ ≠ [] := by
  have : t ∈ setIntersect x list_ := by
    simp [setIntersect, List.mem_dedup, htx, htl]
  exact List.ne_nil_of_mem this

theorem form_group_row_group_ne_nil (col : Col) (list_ : List String)
    (r : Row) (h : ∃ t ∈ list_, t ∈ getCol r col) :
    (form_group_row col list_ r).group ≠ [] := by
  rcases h with ⟨t, htl, htx⟩
  have hg : setIntersect (getCol r col) list_ ≠ [] :=
    setIntersect_ne_nil htx htl
  unfold form_group_row helper_form_group
  by_cases hlen : 1 < list_.length
  · by_cases hc : list_.all
      (fun item => decide (item ∈ setIntersect (getCol r col) list_)) = true
    · simp [hlen, hc]
    · simp [hlen, hc, hg]
  · simp [hlen, hg]

/-- C9: every row of the table returned by `call_boardgame_radio` has a
non-empty `group` list. -/
theorem C9_radio_group_nonempty (data : DF) (col : Col)
    (list_ : List String) (yin yout : Int) (nr : Nat) (out : Row)
    (h : out ∈ call_boardgame_radio data col list_ yin yout nr) :
    out.group ≠ [] := by
  rcases (mem_call_boardgame_radio data col list_ yin yout nr out).mp h with
    ⟨r, _, _, _, hany, hout⟩
  subst hout
  exact form_group_row_group_ne_nil col list_ r hany

/-- C7 (witness): the one-row table `[exRowA]` under the default bounds. -/
theorem C7_witness :
    form_group_row Col.category ["X"] exRowA
      ∈ call_boardgame_radio [exRowA] Col.category ["X"] 1900 2200 0
    ∧ (0 ≤ (form_group_row Col.category ["X"] exRowA).users_rated
        ∧ 1900 ≤ (form_group_row Col.category ["X"] exRowA).year_published
        ∧ (form_group_row Col.category ["X"] exRowA).year_published ≤ 2200) :=
  have hmem : form_group_row Col.category ["X"] exRowA
      ∈ call_boardgame_radio [exRowA] Col.category ["X"] 1900 2200 0 := by
    decide
  ⟨hmem, C7_radio_year_rating_bounds [exRowA] Col.category ["X"] 1900 2200 0
    (form_group_row Col.category ["X"] exRowA) hmem⟩

/-- C9 (witness): a two-tag selection fully matched by `exRowXY`. -/
theorem C9_witness :
    form_group_row Col.category ["X", "Y"] exRowXY
      ∈ call_boardgame_radio [exRowXY] Col.category ["X", "Y"] 1900 2200 0
    ∧ (form_group_row Col.category ["X", "Y"] exRowXY).group ≠ [] :=
  have hmem : form_group_row Col.category ["X", "Y"] exRowXY
      ∈ call_boardgame_radio [exRowXY] Col.category ["X", "Y"] 1900 2200 0 := by
    decide
  ⟨hmem, C9_radio_group_nonempty [exRowXY] Col.category ["X", "Y"] 1900 2200 0
    (form_group_row Col.category ["X", "Y"] exRowXY) hmem⟩

/-!
## C4: the group column is the tag/selection intersection
-/

/-- C4: for a row that does not match every selected tag, `form_group`
sets its `group` cell to the set intersection of the row's tags in `col`
with the selection — stated as membership equivalence, since set element
order and duplicates are immaterial. -/
theorem C4_group_is_intersection (data : DF) (col : Col)
    (list_ : List String) (i : Nat) (hi : i < data.length)
    (hnot : ¬ ∀ t ∈ list_, t ∈ getCol (data.get ⟨i, hi⟩) col) :
    ∀ t : String,
      t ∈ ((form_group data col list_).get
        ⟨i, by simpa [form_group] using hi⟩).group
      ↔ t ∈ getCol (data.get ⟨i, hi⟩) col ∧ t ∈ list_ := by
  have hget : (form_group data col list_).get
      ⟨i, by simpa [form_group] using hi⟩
      = form_group_row col list_ (data.get ⟨i, hi⟩) := by
    simp [form_group, List.get_eq_getElem]
  rw [hget]
  have hmem : ∀ t : String,
      t ∈ setIntersect (getCol (data.get ⟨i, hi⟩) col) list_
      ↔ t ∈ getCol (data.get ⟨i, hi⟩) col ∧ t ∈ list_ := by
    intro t
    simp [setIntersect, List.mem_filter, List.mem_dedup]
  by_cases hlen : 1 < list_.length
  · have hc : list_.all
        (fun item =>
          decide (item ∈ setIntersect (getCol (data.get ⟨i, hi⟩) col) list_))
        = false := by
      by_contra hne
      have hc' := Bool.of_not_eq_false hne
      apply hnot
      intro t ht
      have hd := List.all_eq_true.mp hc' t ht
      have : t ∈ setIntersect (getCol (data.get ⟨i, hi⟩) col) list_ := by
        simpa using hd
      exact ((hmem t).mp this).1
    intro t
    simp only [form_group_row, hlen, if_true, helper_form_group, hc,
      Bool.false_eq_true, if_false]
    exact hmem t
  · intro t
    simp only [form_group_row, hlen, if_false]
    exact hmem t

/-- C4 (witness): `exRowA` (category `["X"]`) does not match the selection
`["X", "Y"]`; its group is the intersection, which contains `"X"`. -/
theorem C4_witness :
    (¬ ∀ t ∈ (["X", "Y"] : List String),
      t ∈ getCol ([exRowA].get ⟨0, by decide⟩) Col.category)
    ∧ ("X" ∈ ((form_group [exRowA] Col.category ["X", "Y"]).get
          ⟨0, by decide⟩).group
        ↔ "X" ∈ getCol ([exRowA].get ⟨0, by decide⟩) Col.category
          ∧ "X" ∈ (["X", "Y"] : List String)) :=
  ⟨by decide,
    C4_group_is_intersection [exRowA] Col.category ["X", "Y"] 0 (by decide)
      (by decide) "X"⟩

/-!
## C8: descending sort and truncation
-/

/-- C8: with `n = None` the result is the surviving rows sorted by
`average_rating` in descending order; `n = Some 0` behaves like `None`
(Python `if n:` is false at `0`), and a nonzero `n` truncates the sorted
result to its first `n` rows. -/
theorem C8_sort_and_truncate (data : DF) (cat mech pub : List String)
    (nr : Nat) :
    List.Sorted ratingGE (call_boardgame_filter data cat mech pub none nr)
    ∧ (call_boardgame_filter data cat mech pub none nr).Perm
        ((rating_filter data nr).filter (fun r =>
          effAllB (rating_filter data nr) Col.category cat r
          && effAllB (rating_filter data nr) Col.mechanic mech r
          && effAllB (rating_filter data nr) Col.publisher pub r))
    ∧ call_boardgame_filter data cat mech pub (some 0) nr
        = call_boardgame_filter data cat mech pub none nr
    ∧ ∀ k : Nat, k ≠ 0 →
        call_boardgame_filter data cat mech pub (some k) nr
          = (call_boardgame_filter data cat mech pub none nr).take k := by
  refine ⟨?_, ?_, ?_, ?_⟩
  · rw [call_boardgame_filter_none]
    exact List.sorted_insertionSort ratingGE _
  · rw [call_boardgame_filter_none]
    unfold sortByRatingDesc
    exact List.perm_insertionSort ratingGE _
  · simp [call_boardgame_filter]
  · intro k hk
    simp only [call_boardgame_filter]
    rw [if_pos hk]

/-- C8 (witness): truncation to one row on a concrete two-row table. -/
theorem C8_witness :
    (1 : Nat) ≠ 0
    ∧ call_boardgame_filter [exRowA, exRowXY] [] [] [] (some 1) 0
        = (call_boardgame_filter [exRowA, exRowXY] [] [] [] none 0).take 1 :=
  ⟨by decide,
    (C8_sort_and_truncate [exRowA, exRowXY] [] [] [] 0).2.2.2 1 (by decide)⟩

/-!
## C5: `count_group` adds the "All Selected" counts to every other group
-/

theorem count_group_groups (data : DF) :
    (count_group data).groups
      = ((explodeGroup data).map (fun p => p.2)).dedup := by
  simp only [count_group]
  split <;> rfl

/-- C5: whenever an `"All Selected"` column exists, each other group's
cell for a year is its raw per-year count plus that year's
`"All Selected"` count (absent `"All Selected"` cells counting 0, absent
raw cells staying absent), and the `"All Selected"` column is returned
unchanged. -/
theorem C5_count_group_addition (data : DF)
    (hAS : "All Selected" ∈ (count_group data).groups)
    (y : Int) (g : String) (hg : g ≠ "All Selected") :
    (count_group data).cell y g
      = (rawCell data y g).map
          (fun c => c + (rawCell data y "All Selected").getD 0)
    ∧ (count_group data).cell y "All Selected"
      = rawCell data y "All Selected" := by
  have hG : "All Selected" ∈ ((explodeGroup data).map (fun p => p.2)).dedup := by
    rw [← count_group_groups]
    exact hAS
  constructor
  · simp only [count_group]
    rw [if_pos hG]
    dsimp only
    rw [if_neg hg]
  · simp only [count_group]
    rw [if_pos hG]
    dsimp only
    rw [if_pos rfl]

def exRowG1 : Row :=
  { game_id := 3, name := "c", year_published := 2000, average_rating := 6,
    users_rated := 5, category := ["X"], mechanic := ["M"],
    publisher := ["P"], group := ["All Selected"] }

def exRowG2 : Row :=
  { game_id := 4, name := "d", year_published := 2000, average_rating := 5,
    users_rated := 7, category := ["X"], mechanic := ["M"],
    publisher := ["P"], group := ["X"] }

/-- C5 (witness): a year-2000 table with one `"All Selected"` row and one
`"X"` row. -/
theorem C5_witness :
    "All Selected" ∈ (count_group [exRowG1, exRowG2]).groups
    ∧ ("X" : String) ≠ "All Selected"
    ∧ ((count_group [exRowG1, exRowG2]).cell 2000 "X"
        = (rawCell [exRowG1, exRowG2] 2000 "X").map
            (fun c => c + (rawCell [exRowG1, exRowG2] 2000 "All Selected").getD 0)
      ∧ (count_group [exRowG1, exRowG2]).cell 2000 "All Selected"
        = rawCell [exRowG1, exRowG2] 2000 "All Selected") :=
  ⟨by decide, by decide,
    C5_count_group_addition [exRowG1, exRowG2] (by decide) 2000 "X"
      (by decide)⟩

/-!
## C3: density normalization
-/

theorem mem_explodeGroup (data : DF) (p : Row × String) :
    p ∈ explodeGroup data ↔ p.1 ∈ data ∧ p.2 ∈ p.1.group := by
  induction data with
  | nil => simp [explodeGroup]
  | cons r rs ih =>
    simp only [explodeGroup, List.mem_append, List.mem_map, ih, List.mem_cons]
    constructor
    · rintro (⟨g, hgmem, rfl⟩ | ⟨h1, h2⟩)
      · exact ⟨Or.inl rfl, hgmem⟩
      · exact ⟨Or.inr h1, h2⟩
    · rintro ⟨h1 | h1, h2⟩
      · exact Or.inl ⟨p.2, h1 ▸ h2, by rw [← h1]⟩
      · exact Or.inr ⟨h1, h2⟩

theorem sum_indicator_one {labels : List ℚ} (hnd : labels.Nodup) {k : ℚ}
    (hk : k ∈ labels) :
    (labels.map (fun b => if k = b then (1 : ℕ) else 0)).sum = 1 := by
  induction labels with
  | nil => cases hk
  | cons b bs ih =>
    rcases List.nodup_cons.mp hnd with ⟨hb, hbs⟩
    rcases List.mem_cons.mp hk with h | h
    · subst h
      have hzero : (bs.map (fun x => if k = x then (1 : ℕ) else 0)).sum = 0 := by
        apply List.sum_eq_zero
        intro n hn
        rcases List.mem_map.mp hn with ⟨x, hx, rfl⟩
        have : k ≠ x := fun hkx => hb (hkx ▸ hx)
        simp [this]
      simp [hzero]
    · have hk' : k ≠ b := by
        rintro rfl
        exact hb h
      simp [hk', ih hbs h]

/-- Counting a list by a key ranging over a duplicate-free list of labels
recovers its length. -/
theorem length_eq_sum_partition {α : Type} (key : α → ℚ)
    {labels : List ℚ} (hnd : labels.Nodup) :
    ∀ l : List α, (∀ a ∈ l, key a ∈ labels) →
      (labels.map
        (fun b => (l.filter (fun a => decide (key a = b))).length)).sum
        = l.length := by
  intro l
  induction l with
  | nil => simp
  | cons a l' ih =>
    intro h
    have hmap : labels.map
        (fun b => ((a :: l').filter (fun x => decide (key x = b))).length)
        = labels.map (fun b =>
            (if key a = b then 1 else 0)
            + (l'.filter (fun x => decide (key x = b))).length) := by
      apply List.map_congr_left
      intro b _
      by_cases hab : key a = b
      · simp [List.filter_cons, hab]
        omega
      · simp [List.filter_cons, hab]
    rw [hmap, List.sum_map_add, sum_indicator_one hnd (h a (List.mem_cons_self a l')),
      ih (fun x hx => h x (List.mem_cons_of_mem a hx))]
    simp [Nat.add_comm]

theorem mem_concatAll {α : Type} (a : α) :
    ∀ ls : List (List α), a ∈ concatAll ls ↔ ∃ l ∈ ls, a ∈ l := by
  intro ls
  induction ls with
  | nil => simp [concatAll]
  | cons l ls ih => simp [concatAll, List.mem_append, ih]

theorem mem_prodKeys (x : ℚ × String) (gs : List String) :
    ∀ bs : List ℚ, x ∈ prodKeys bs gs ↔ x.1 ∈ bs ∧ x.2 ∈ gs := by
  intro bs
  induction bs with
  | nil => simp [prodKeys]
  | cons b bs ih =>
    simp only [prodKeys, List.mem_append, List.mem_map, ih, List.mem_cons]
    constructor
    · rintro (⟨g, hgs, rfl⟩ | ⟨h1, h2⟩)
      · exact ⟨Or.inl rfl, hgs⟩
      · exact ⟨Or.inr h1, h2⟩
    · rintro ⟨h1 | h1, h2⟩
      · exact Or.inl ⟨x.2, h2, by rw [← h1]⟩
      · exact Or.inr ⟨h1, h2⟩

/-- Filtering a concatenation of per-name blocks down to the name `g`
recovers exactly `g`'s block, when the names are duplicate-free. -/
theorem filter_concat_blocks {α : Type} (p : α → Bool) (f : String → List α)
    (g : String) (hkeep : ∀ a ∈ f g, p a = true)
    (hother : ∀ x, x ≠ g → ∀ a ∈ f x, p a = false) :
    ∀ names : List String, names.Nodup → g ∈ names →
      (concatAll (names.map f)).filter p = f g := by
  intro names
  induction names with
  | nil => intro _ h; cases h
  | cons x xs ih =>
    intro hnd hg
    rcases List.nodup_cons.mp hnd with ⟨hx, hxs⟩
    simp only [List.map_cons, concatAll, List.filter_append]
    rcases List.mem_cons.mp hg with h | h
    · subst h
      have h1 : (f g).filter p = f g := List.filter_eq_self.mpr hkeep
      have h2 : (concatAll (xs.map f)).filter p = [] := by
        rw [List.filter_eq_nil_iff]
        intro a ha
        rcases (mem_concatAll a (xs.map f)).mp ha with ⟨l, hl, hal⟩
        rcases List.mem_map.mp hl with ⟨x', hx', rfl⟩
        have hx'g : x' ≠ g := fun e => hx (e ▸ hx')
        simp [hother x' hx'g a hal]
      rw [h1, h2, List.append_nil]
    · have hxg : x ≠ g := fun e => hx (e ▸ h)
      have h1 : (f x).filter p = [] := by
        rw [List.filter_eq_nil_iff]
        intro a ha
        simp [hother x hxg a ha]
      rw [h1, ih hxs h, List.nil_append]

theorem filter_map_tags_eq (b : ℚ) (c : ℚ → String → ℕ) (g : String) :
    ∀ gs : List String, gs.Nodup → g ∈ gs →
      ((gs.map (fun x => ((b, x, c b x) : ℚ × String × ℕ))).filter
        (fun t => decide (t.2.1 = g))) = [(b, g, c b g)] := by
  intro gs
  induction gs with
  | nil => intro _ h; cases h
  | cons x xs ih =>
    intro hnd hg
    rcases List.nodup_cons.mp hnd with ⟨hx, hxs⟩
    rcases List.mem_cons.mp hg with h | h
    · subst h
      have htail : ((xs.map (fun x => ((b, x, c b x) : ℚ × String × ℕ))).filter
          (fun t => decide (t.2.1 = g))) = [] := by
        rw [List.filter_eq_nil_iff]
        intro a ha
        rcases List.mem_map.mp ha with ⟨x', hx', rfl⟩
        have : x' ≠ g := fun e => hx (e ▸ hx')
        simp [this]
      simp [List.filter_cons, htail]
    · have hxg : x ≠ g := fun e => hx (e ▸ h)
      simp [List.filter_cons, hxg, ih hxs h]

/-- The rows of `plot_density` for group `g` are exactly one row per bin
label, carrying that bin's count. -/
theorem plot_density_filter_eq (data : DF) (g : String)
    (hg : g ∈ observedGroups data) :
    (plot_density data).filter (fun t => decide (t.2.1 = g))
      = binLabels.map (fun b => (b, g, countBin data b g)) := by
  unfold plot_density
  have hnd : (observedGroups data).Nodup := List.nodup_dedup _
  generalize binLabels = bs
  induction bs with
  | nil => rfl
  | cons b bs ih =>
    simp only [prodKeys, List.map_append, List.filter_append, List.map_cons]
    rw [List.map_map]
    have hcomp :
        ((fun k : ℚ × String => (k.1, k.2, countBin data k.1 k.2))
          ∘ (fun x => (b, x)))
        = fun x => ((b, x, countBin data b x) : ℚ × String × ℕ) := rfl
    rw [hcomp, filter_map_tags_eq b (countBin data) g (observedGroups data)
      hnd hg, ih]
    rfl

theorem binLabels_nodup : binLabels.Nodup := by
  have hinj : Function.Injective (fun i : Nat => (i : ℚ) / 2) := by
    intro i j hij
    simp only at hij
    have h2 : (i : ℚ) = (j : ℚ) := by
      field_simp at hij
      exact_mod_cast hij
    exact_mod_cast h2
  unfold binLabels
  exact List.Nodup.map hinj (List.nodup_range 21)

theorem zero_mem_binLabels : (0 : ℚ) ∈ binLabels := by
  have h00 : ((0 : ℕ) : ℚ) / 2 ∈ binLabels := by
    unfold binLabels
    exact List.mem_map_of_mem _ (List.mem_range.mpr (by norm_num))
  simpa using h00

theorem mem_block_snd {x : String} {pd' : List (ℚ × String × ℕ)} {T : ℚ}
    {a : ℚ × String × ℚ}
    (ha : a ∈ (pd'.filter (fun t => decide (t.2.1 = x))).map
      (fun t => ((t.1, t.2.1, (t.2.2 : ℚ) / T) : ℚ × String × ℚ))) :
    a.2.1 = x := by
  rcases List.mem_map.mp ha with ⟨t, ht, rfl⟩
  have h2 := (List.mem_filter.mp ht).2
  simpa using h2

/-- C3: over exact rational arithmetic, the density values emitted by
`density_transform` for any group present in the (validly binned) input
table sum to exactly 1. -/
theorem C3_density_sums_to_one (data : DF) (g : String)
    (hbin : ∀ r ∈ data, r.average_rating_bin ∈ binLabels)
    (hg : ∃ r ∈ data, g ∈ r.group) :
    (((density_transform data).filter (fun t => decide (t.2.1 = g))).map
      (fun t => t.2.2)).sum = 1 := by
  obtain ⟨r0, hr0, hgr0⟩ := hg
  have hpair : ((r0, g) : Row × String) ∈ explodeGroup data :=
    (mem_explodeGroup data (r0, g)).mpr ⟨hr0, hgr0⟩
  have hgobs : g ∈ observedGroups data := by
    unfold observedGroups
    exact List.mem_dedup.mpr (List.mem_map.mpr ⟨(r0, g), hpair, rfl⟩)
  have h0bin : (0 : ℚ) ∈ binLabels := zero_mem_binLabels
  have hgnames : g ∈ ((plot_density data).map (fun t => t.2.1)).dedup := by
    apply List.mem_dedup.mpr
    apply List.mem_map.mpr
    refine ⟨((0 : ℚ), g, countBin data 0 g), ?_, rfl⟩
    unfold plot_density
    exact List.mem_map.mpr
      ⟨((0 : ℚ), g), (mem_prodKeys ((0 : ℚ), g) _ binLabels).mpr
        ⟨h0bin, hgobs⟩, rfl⟩
  -- the filtered output is exactly group g's block
  have hdt : (density_transform data).filter (fun t => decide (t.2.1 = g))
      = ((plot_density data).filter (fun t => decide (t.2.1 = g))).map
          (fun t => ((t.1, t.2.1, (t.2.2 : ℚ) /
            (((plot_density data).filter (fun t => decide (t.2.1 = g))).map
              (fun t => (t.2.2 : ℚ))).sum) : ℚ × String × ℚ)) := by
    simp only [density_transform]
    apply filter_concat_blocks (fun t => decide (t.2.1 = g))
      (fun x => ((plot_density data).filter (fun t => decide (t.2.1 = x))).map
        (fun t => ((t.1, t.2.1, (t.2.2 : ℚ) /
          (((plot_density data).filter (fun t => decide (t.2.1 = x))).map
            (fun t => (t.2.2 : ℚ))).sum) : ℚ × String × ℚ)))
      g ?_ ?_ _ (List.nodup_dedup _) hgnames
    · intro a ha
      simp [mem_block_snd ha]
    · intro x hxg a ha
      have hax := mem_block_snd ha
      simp [hax, hxg]
  rw [hdt, plot_density_filter_eq data g hgobs]
  simp only [List.map_map, Function.comp]
  -- the per-group total count, as a natural number
  have hcnt : ∀ b : ℚ, countBin data b g
      = (((explodeGroup data).filter (fun p => decide (p.2 = g))).filter
          (fun p => decide (p.1.average_rating_bin = b))).length := by
    intro b
    unfold countBin
    rw [← List.filter_filter]
  have hmemlabels : ∀ p ∈ (explodeGroup data).filter
      (fun p => decide (p.2 = g)), p.1.average_rating_bin ∈ binLabels := by
    intro p hp
    have hpe := (List.mem_filter.mp hp).1
    exact hbin p.1 ((mem_explodeGroup data p).mp hpe).1
  have hsumN : (binLabels.map (fun b => countBin data b g)).sum
      = ((explodeGroup data).filter (fun p => decide (p.2 = g))).length := by
    have hmapeq : binLabels.map (fun b => countBin data b g)
        = binLabels.map (fun b =>
          (((explodeGroup data).filter (fun p => decide (p.2 = g))).filter
            (fun p => decide (p.1.average_rating_bin = b))).length) :=
      List.map_congr_left (fun b _ => hcnt b)
    rw [hmapeq]
    have hpart := length_eq_sum_partition
      (fun p : Row × String => p.1.average_rating_bin) binLabels_nodup
      ((explodeGroup data).filter (fun p => decide (p.2 = g))) hmemlabels
    exact hpart
  have hpos : 0 <
      ((explodeGroup data).filter (fun p => decide (p.2 = g))).length := by
    have : ((r0, g) : Row × String) ∈ (explodeGroup data).filter
        (fun p => decide (p.2 = g)) :=
      List.mem_filter.mpr ⟨hpair, by simp⟩
    exact List.length_pos.mpr (List.ne_nil_of_mem this)
  have hTcast : (binLabels.map (fun b => (countBin data b g : ℚ))).sum
      = ((((explodeGroup data).filter
          (fun p => decide (p.2 = g))).length : ℕ) : ℚ) := by
    calc (binLabels.map (fun b => (countBin data b g : ℚ))).sum
        = ((binLabels.map (fun b => countBin data b g)).map
            (fun n : ℕ => (n : ℚ))).sum := by
          rw [List.map_map]
          rfl
      _ = (((binLabels.map (fun b => countBin data b g)).sum : ℕ) : ℚ) :=
          (Nat.cast_list_sum _).symm
      _ = _ := by rw [hsumN]
  have hTne : (binLabels.map (fun b => (countBin data b g : ℚ))).sum ≠ 0 := by
    rw [hTcast]
    have hne : ((explodeGroup data).filter
        (fun p => decide (p.2 = g))).length ≠ 0 := Nat.pos_iff_ne_zero.mp hpos
    exact_mod_cast hne
  calc (binLabels.map (fun b => (countBin data b g : ℚ) /
        (binLabels.map (fun b => (countBin data b g : ℚ))).sum)).sum
      = (binLabels.map (fun b => (countBin data b g : ℚ) *
          ((binLabels.map (fun b => (countBin data b g : ℚ))).sum)⁻¹)).sum := by
        simp only [div_eq_mul_inv]
    _ = (binLabels.map (fun b => (countBin data b g : ℚ))).sum *
          ((binLabels.map (fun b => (countBin data b g : ℚ))).sum)⁻¹ :=
        List.sum_map_mul_right _ _ _
    _ = 1 := mul_inv_cancel₀ hTne

/-- C3 (witness): two rows in bin 0, groups `"All Selected"` and `"X"`. -/
theorem C3_witness :
    (∀ r ∈ [exRowG1, exRowG2], r.average_rating_bin ∈ binLabels)
    ∧ (((density_transform [exRowG1, exRowG2]).filter
        (fun t => decide (t.2.1 = "X"))).map (fun t => t.2.2)).sum = 1 :=
  have hb : ∀ r ∈ [exRowG1, exRowG2], r.average_rating_bin ∈ binLabels := by
    intro r hr
    rcases List.mem_cons.mp hr with rfl | hr
    · simpa [exRowG1] using zero_mem_binLabels
    · rcases List.mem_cons.mp hr with rfl | hr
      · simpa [exRowG2] using zero_mem_binLabels
      · cases hr
  ⟨hb, C3_density_sums_to_one [exRowG1, exRowG2] "X" hb
    ⟨exRowG2, by simp, by simp [exRowG2]⟩⟩

/-!
## C10: the exported transforms leave their input dataframe unchanged
-/

theorem getRef_append_lt (s t : Store) (r : Nat) (hr : r < s.length) :
    getRef (s ++ t) r = getRef s r := by
  unfold getRef
  rw [List.getD_eq_getElem?_getD, List.getD_eq_getElem?_getD,
    List.getElem?_append_left hr]

theorem getRef_set_ne (s : Store) (i : Nat) (d : DF) (r : Nat) (hir : i ≠ r) :
    getRef (s.set i d) r = getRef s r := by
  unfold getRef
  rw [List.getD_eq_getElem?_getD, List.getD_eq_getElem?_getD,
    List.getElem?_set_ne hir]

/-- C10: `call_boardgame_filter`, `call_boardgame_radio` and
`call_boardgame_top` do not change the dataframe their argument refers
to: each works on the deep copy it allocates, and the one in-place write
(`form_group` inside the radio pipeline) hits only that copy. -/
theorem C10_input_unchanged (s : Store) (r : Nat) (hr : r < s.length)
    (cat mech pub list_ : List String) (col : Col) (n : Option Nat)
    (nr : Nat) (yin yout : Int) :
    getRef (call_boardgame_filter_store s r cat mech pub n nr).1 r
      = getRef s r
    ∧ getRef (call_boardgame_radio_store s r col list_ yin yout nr).1 r
      = getRef s r
    ∧ getRef (call_boardgame_top_store s r col yin yout nr).1 r
      = getRef s r := by
  refine ⟨?_, ?_, ?_⟩
  · cases n with
    | none =>
      simp only [call_boardgame_filter_store, alloc]
      simp only [List.append_assoc]
      exact getRef_append_lt s _ r hr
    | some k =>
      by_cases hk : k = 0
      · simp only [call_boardgame_filter_store, alloc]
        rw [if_neg (not_not_intro hk)]
        simp only [List.append_assoc]
        exact getRef_append_lt s _ r hr
      · simp only [call_boardgame_filter_store, alloc]
        rw [if_pos hk]
        simp only [List.append_assoc]
        exact getRef_append_lt s _ r hr
  · simp only [call_boardgame_radio_store, alloc, form_group_store]
    rw [getRef_append_lt _ _ _ (by simp; omega)]
    rw [getRef_set_ne _ _ _ _ (by simp; omega)]
    simp only [List.append_assoc]
    exact getRef_append_lt s _ r hr
  · simp only [call_boardgame_top_store, alloc]
    simp only [List.append_assoc]
    exact getRef_append_lt s _ r hr

/-- C10 (witness): a one-frame store. -/
theorem C10_witness :
    (0 : Nat) < ([[exRowA]] : Store).length
    ∧ getRef (call_boardgame_filter_store [[exRowA]] 0 [] [] [] none 0).1 0
        = getRef [[exRowA]] 0 :=
  ⟨by decide,
    (C10_input_unchanged [[exRowA]] 0 (by decide) [] [] [] []
      Col.category none 0 1900 2200).1⟩
